import Mathlib

/-!
Shallow embedding of the leptjson scalar JSON parser
(src/tutorial03/leptjson.c, plus lept_parse_number3 of
src/tutorial02/leptjson.c), with theorems checking the natural-language
specification of the repository.

Conventions of the embedding:
* The input text is a list of bytes (Nat values, meaningful range 0..255).
  Reading at or past the end of the list yields 0, which matches the NUL
  terminator of a C string; an embedded 0 byte behaves exactly like the
  end of the input, as it does in C.
* The C type char is signed on the reference x86-64 SysV ABI, so every
  relational comparison on a char value is modelled on the signed
  interpretation (function schar below).
* The scratch stack of lept_context is modelled by its live bytes
  (a list, bottom first); the physical capacity, reallocation and the
  unread garbage above the top of the C code are not modelled, only the
  logical contents up to top = length.
* strtod of the C library is modelled from the C89 standard (decimal
  forms only), see strtodModel.
-/

set_option maxRecDepth 4000

namespace Leptjson



/-- Reading one byte at the cursor; at or past the end of the list a C
string yields its NUL terminator 0. -/
def peek (l : List Nat) : Nat := l.headD 0

/-- Value of a char expression on the reference ABI, where char is signed:
byte values 128..255 denote the negative values -128..-1. -/
def schar (b : Nat) : Int :=
  if b % 256 < 128 then ((b % 256 : Nat) : Int) else ((b % 256 : Nat) : Int) - 256

/-- Macro ISDIGIT of leptjson.c: (ch) >= 48 && (ch) <= 57 on the char value. -/
def ISDIGIT (b : Nat) : Bool := decide (48 ≤ schar b) && decide (schar b ≤ 57)

/-- Macro ISDIGIT1TO9 of leptjson.c: (ch) >= 49 && (ch) <= 57 on the char value. -/
def ISDIGIT1TO9 (b : Nat) : Bool := decide (49 ≤ schar b) && decide (schar b ≤ 57)

/-- Modelled from the spec: the lept_type enumeration of leptjson.h (the
header is not under src/); one tag per Value variant of the data model. -/
inductive LeptType
  | LEPT_NULL
  | LEPT_FALSE
  | LEPT_TRUE
  | LEPT_NUMBER
  | LEPT_STRING
  deriving DecidableEq

/-- A double produced by strtod, abstracted: a finite value carries the
exact rational of the decimal text (rounding to the nearest double is not
modelled, no checked claim depends on it); the infinities are kept as
separate constructors because the parser compares the result against
HUGE_VAL and -HUGE_VAL. -/
inductive FloatVal
  | finite (q : ℚ)
  | posInf
  | negInf
  deriving DecidableEq

/-- Modelled from the spec: lept_value of leptjson.h.  The C object is a
tagged union; the union members are modelled as always-present fields
that are stale whenever the tag does not match, exactly like the C
memory.  sbuf models the malloc block behind u.s.s including its
terminating NUL byte, slen models u.s.len. -/
structure LeptValue where
  type : LeptType
  n : FloatVal
  sbuf : List Nat
  slen : Nat
  deriving DecidableEq

/-- Modelled from the spec: the LEPT_PARSE_* return codes of leptjson.h
(the error taxonomy of the spec, plus the success code). -/
inductive LeptRet
  | LEPT_PARSE_OK
  | LEPT_PARSE_EXPECT_VALUE
  | LEPT_PARSE_INVALID_VALUE
  | LEPT_PARSE_ROOT_NOT_SINGULAR
  | LEPT_PARSE_NUMBER_TOO_BIG
  | LEPT_PARSE_MISS_QUOTATION_MARK
  | LEPT_PARSE_INVALID_STRING_ESCAPE
  | LEPT_PARSE_INVALID_STRING_CHAR
  deriving DecidableEq

/-- lept_context of src/tutorial03/leptjson.c: the cursor into the input
and the scratch stack (its live bytes, bottom first; top = stk.length). -/
structure Ctx where
  json : List Nat
  stk : List Nat
  deriving DecidableEq

/-- Result of a scanner: the returned code together with the context and
the value after the call (the C functions mutate both through pointers). -/
structure PRes where
  ret : LeptRet
  c : Ctx
  v : LeptValue
  deriving DecidableEq

/-- Modelled from the spec: lept_init of leptjson.h resets the tag to the
Null state (the driver starts by resetting the Value to Null). -/
def lept_init (v : LeptValue) : LeptValue := { v with type := .LEPT_NULL }

/-- lept_free: frees the owned payload when the tag is LEPT_STRING and
resets the tag to LEPT_NULL.  The freed block stays in sbuf as stale
memory, as in C. -/
def lept_free (v : LeptValue) : LeptValue := { v with type := .LEPT_NULL }

/-- The guard of the free call inside lept_free: the payload is passed to
free exactly when the tag is LEPT_STRING. -/
def lept_free_frees_payload (v : LeptValue) : Bool := decide (v.type = .LEPT_STRING)

/-- lept_set_string: releases the previous payload, copies len bytes of s
into a fresh block of len + 1 bytes, writes the terminating NUL at index
len, and sets the tag to LEPT_STRING. -/
def lept_set_string (v : LeptValue) (s : List Nat) (len : Nat) : LeptValue :=
  let v1 := lept_free v
  { v1 with sbuf := s.take len ++ [0], slen := len, type := .LEPT_STRING }

/-- lept_get_string: the pointer to the NUL-terminated block. -/
def lept_get_string (v : LeptValue) : List Nat := v.sbuf

/-- lept_get_string_length. -/
def lept_get_string_length (v : LeptValue) : Nat := v.slen

/-- strlen on a modelled C string: the bytes before the first NUL. -/
def cstrlen (l : List Nat) : Nat := (l.takeWhile (fun b => b != 0)).length

/-- lept_parse_whitespace: skip the run of space, tab, newline, carriage
return at the cursor. -/
def isWS (b : Nat) : Bool := b = 32 || b = 9 || b = 10 || b = 13

def lept_parse_whitespace (l : List Nat) : List Nat := l.dropWhile isWS

/-- The comparison loop of lept_parse_literal: compare the input bytes at
the cursor against literal[i + 1] for i = 0, 1, ... (the first byte of
the literal has already been consumed by EXPECT). -/
def matchTail : List Nat → List Nat → Bool
  | _, [] => true
  | j, x :: xs => if peek j = x then matchTail (j.drop 1) xs else false

def tokTrue : List Nat := [116, 114, 117, 101]

def tokFalse : List Nat := [102, 97, 108, 115, 101]

def tokNull : List Nat := [110, 117, 108, 108]

/-- lept_parse_literal of src/tutorial03/leptjson.c.  EXPECT consumes the
first byte (asserted equal to literal[0] at every call site); the loop
compares the rest byte for byte; on success the cursor has advanced by
the length of the literal and the tag is set. -/
def lept_parse_literal (c : Ctx) (v : LeptValue) (lit : List Nat) (t : LeptType) : PRes :=
  let j1 := c.json.drop 1
  if matchTail j1 (lit.drop 1) then
    ⟨.LEPT_PARSE_OK, { c with json := c.json.drop lit.length }, { v with type := t }⟩
  else
    ⟨.LEPT_PARSE_INVALID_VALUE, { c with json := j1 }, v⟩

/-- Number of leading digit bytes, as walked by the for loops of the
number grammar. -/
def countDigits (l : List Nat) : Nat := (l.takeWhile ISDIGIT).length

/-- The int production of lept_parse_number: a single 0, or a 1-9 digit
followed by any digits; none encodes the INVALID_VALUE return. -/
def intLen (l : List Nat) : Option Nat :=
  if peek l = 48 then some 1
  else if ISDIGIT1TO9 (peek l) then some (1 + countDigits (l.drop 1))
  else none

/-- The optional frac production: a dot must be followed by at least one
digit; none encodes the INVALID_VALUE return. -/
def fracLen (l : List Nat) : Option Nat :=
  if peek l = 46 then
    if ISDIGIT (peek (l.drop 1)) then some (2 + countDigits (l.drop 2)) else none
  else some 0

/-- The optional exp production: e or E, an optional sign, then at least
one digit; none encodes the INVALID_VALUE return. -/
def expLen (l : List Nat) : Option Nat :=
  if peek l = 101 ∨ peek l = 69 then
    let es := if peek (l.drop 1) = 43 ∨ peek (l.drop 1) = 45 then 1 else 0
    if ISDIGIT (peek (l.drop (1 + es))) then
      some (1 + es + 1 + countDigits (l.drop (1 + es + 1)))
    else none
  else some 0

/-- The grammar walk of lept_parse_number (lines 86-102): the length of
the number token at the cursor, or none when the grammar is violated. -/
def numberTokenLen (json : List Nat) : Option Nat :=
  let s := if peek json = 45 then 1 else 0
  match intLen (json.drop s) with
  | none => none
  | some ip =>
    match fracLen (json.drop (s + ip)) with
    | none => none
    | some fp =>
      match expLen (json.drop (s + ip + fp)) with
      | none => none
      | some ep => some (s + ip + fp + ep)

/-- Decimal value of a digit list (most significant first). -/
def digitsVal (l : List Nat) : Nat := l.foldl (fun a b => 10 * a + (b - 48)) 0

/-- Ten to a natural power, as a rational. -/
def pow10 (n : Nat) : ℚ := ((10 ^ n : Nat) : ℚ)

/-- The exact rational m * 10^e, negated when neg is set. -/
def ratVal (m : Nat) (e : Int) (neg : Bool) : ℚ :=
  let q : ℚ := if 0 ≤ e then (m : ℚ) * pow10 e.toNat else (m : ℚ) / pow10 (-e).toNat
  if neg then -q else q

/-- Whether the magnitude m * 10^e converts to infinity in IEEE-754
binary64 round-to-nearest-even: at or beyond the midpoint
(2^54 - 1) * 2^970 between DBL_MAX = (2^53 - 1) * 2^971 and 2^1024,
strtod returns HUGE_VAL of the sign and sets errno to ERANGE.
Stated on integers so the kernel can evaluate concrete instances. -/
def overflows (m : Nat) (e : Int) : Bool :=
  if 0 ≤ e then decide ((2 ^ 54 - 1) * 2 ^ 970 ≤ m * 10 ^ e.toNat)
  else decide ((2 ^ 54 - 1) * 2 ^ 970 * 10 ^ (-e).toNat ≤ m)

/-- Whether the positive magnitude m * 10^e underflows to zero in binary64
round-to-nearest-even: at or below half of the least subnormal, that is
m * 10^e ≤ 2^(-1075); strtod then returns 0 and sets errno to ERANGE.
Stated on integers so the kernel can evaluate concrete instances. -/
def underflows (m : Nat) (e : Int) : Bool :=
  if 0 ≤ e then decide (m * 10 ^ e.toNat * 2 ^ 1075 ≤ 1)
  else decide (m * 2 ^ 1075 ≤ 10 ^ (-e).toNat)

/-- Result of the modelled strtod: the converted value, whether errno was
set to ERANGE, and how many bytes of the subject sequence were read
(the offset of the end pointer). -/
structure StrtodOut where
  val : FloatVal
  erange : Bool
  used : Nat
  deriving DecidableEq

/-- Byte count of the fraction part read by strtod at l: a decimal point
followed by any run of digits (possibly empty, as in the form "5."). -/
def sdFracBytes (l : List Nat) : Nat :=
  if peek l = 46 then 1 + countDigits (l.drop 1) else 0

/-- The fraction digits read by strtod at l. -/
def sdFracDigits (l : List Nat) : List Nat :=
  if peek l = 46 then (l.drop 1).takeWhile ISDIGIT else []

/-- Byte count and signed value of the exponent part read by strtod at l:
e or E, an optional sign, then at least one digit; when no digit follows,
the exponent is not part of the subject sequence. -/
def sdExpPart (l : List Nat) : Nat × Int :=
  if peek l = 101 ∨ peek l = 69 then
    let es := if peek (l.drop 1) = 43 ∨ peek (l.drop 1) = 45 then 1 else 0
    let eds := (l.drop (1 + es)).takeWhile ISDIGIT
    if eds.length = 0 then (0, 0)
    else
      (1 + es + eds.length,
        if peek (l.drop 1) = 45 then -(digitsVal eds : Int) else (digitsVal eds : Int))
  else (0, 0)

/-- The range classification at the end of the modelled strtod: overflow
to the signed infinity with ERANGE, an exact zero, underflow to zero with
ERANGE, or the exact value. -/
def sdFinish (neg : Bool) (m : Nat) (ex : Int) (used : Nat) : StrtodOut :=
  if overflows m ex then ⟨if neg then .negInf else .posInf, true, used⟩
  else if m = 0 then ⟨.finite 0, false, used⟩
  else if underflows m ex then ⟨.finite 0, true, used⟩
  else ⟨.finite (ratVal m ex neg), false, used⟩

/-- Modelled from the C89 standard: strtod on the remaining input.
The subject sequence is an optional sign, a digit run optionally holding
one decimal point, and an optional exponent; when the digit run is empty
no conversion is performed (value 0, nothing read).  The converted
magnitude is m * 10^e with m the digits read as an integer and e the
exponent shifted by the fraction length; overflow and underflow are
classified by overflows and underflows above, other values are kept
exactly (rounding is not modelled).  Hexadecimal floating forms, the
infinity and nan words (C99 additions) and leading whitespace are not
modelled: the parser only calls strtod at a byte that already starts a
grammar-checked number token. -/
def strtodModel (l : List Nat) : StrtodOut :=
  let neg := peek l = 45
  let s := if peek l = 45 ∨ peek l = 43 then 1 else 0
  let l1 := l.drop s
  let ds := l1.takeWhile ISDIGIT
  let l2 := l1.drop ds.length
  let fb := sdFracBytes l2
  let fds := sdFracDigits l2
  if ds.length + fds.length = 0 then ⟨.finite 0, false, 0⟩
  else
    let l3 := l2.drop fb
    let e := sdExpPart l3
    let m : Nat := digitsVal ds * 10 ^ fds.length + digitsVal fds
    let ex : Int := e.2 - (fds.length : Int)
    sdFinish neg m ex (s + ds.length + fb + e.1)

/-- lept_parse_number of src/tutorial03/leptjson.c: validate the grammar
(INVALID_VALUE on violation), convert with strtod from the start of the
token, return NUMBER_TOO_BIG when errno is ERANGE and the result compares
equal to HUGE_VAL or -HUGE_VAL, otherwise set the number and advance the
cursor by the token length. -/
def lept_parse_number (c : Ctx) (v : LeptValue) : PRes :=
  match numberTokenLen c.json with
  | none => ⟨.LEPT_PARSE_INVALID_VALUE, c, v⟩
  | some n =>
    let r := strtodModel c.json
    let v1 := { v with n := r.val }
    if r.erange = true ∧ (r.val = .posInf ∨ r.val = .negInf) then
      ⟨.LEPT_PARSE_NUMBER_TOO_BIG, c, v1⟩
    else
      ⟨.LEPT_PARSE_OK, { c with json := c.json.drop n }, { v1 with type := .LEPT_NUMBER }⟩

/-- lept_parse_number3 of src/tutorial02/leptjson.c.  Its grammar walk
(built on char_range_0_9 and char_range_1_9) consumes byte for byte the
token of numberTokenLen; unlike tutorial03 the range check afterwards
only tests the result against the positive HUGE_VAL. -/
def lept_parse_number3 (json : List Nat) (v : LeptValue) : LeptRet × List Nat × LeptValue :=
  match numberTokenLen json with
  | none => (.LEPT_PARSE_INVALID_VALUE, json, v)
  | some n =>
    let r := strtodModel json
    let v1 := { v with n := r.val }
    if r.erange = true ∧ r.val = .posInf then
      (.LEPT_PARSE_NUMBER_TOO_BIG, json, v1)
    else
      (.LEPT_PARSE_OK, json.drop n, { v1 with type := .LEPT_NUMBER })

/-- The condition of the default case of the Normal state of
lept_parse_string (line 140): the byte is kept verbatim exactly when its
char value lies in [0x20, 0x21], in [0x23, 0x5b], or at or above 0x5d. -/
def strCharValid (ch : Nat) : Bool :=
  (decide (32 ≤ schar ch) && decide (schar ch ≤ 33)) ||
  (decide (35 ≤ schar ch) && decide (schar ch ≤ 91)) ||
  decide (93 ≤ schar ch)

/-- Outcome of the scanning loop of lept_parse_string: on success the
remaining input, the stack left after the pop, the popped bytes and their
count; on failure the code and the stack reset to head. -/
inductive SLoop
  | ok (json : List Nat) (stk : List Nat) (s : List Nat) (len : Nat)
  | err (code : LeptRet) (stk : List Nat)
  deriving DecidableEq

/-- The for loop of lept_parse_string (lines 123-174): a two-state machine
over the bytes after the opening quote (esc is the is_escaping flag).
On the closing quote it pops len = top - head bytes; on any failure it
resets the stack top to head. -/
def stringLoop : List Nat → Bool → List Nat → Nat → SLoop
  | [], esc, stk, head =>
    if esc then .err .LEPT_PARSE_INVALID_STRING_ESCAPE (stk.take head)
    else .err .LEPT_PARSE_MISS_QUOTATION_MARK (stk.take head)
  | ch :: rest, esc, stk, head =>
    if esc = false then
      if ch = 34 then .ok rest (stk.take head) (stk.drop head) (stk.length - head)
      else if ch = 0 then .err .LEPT_PARSE_MISS_QUOTATION_MARK (stk.take head)
      else if ch = 92 then stringLoop rest true stk head
      else if strCharValid ch then stringLoop rest false (stk ++ [ch]) head
      else .err .LEPT_PARSE_INVALID_STRING_CHAR (stk.take head)
    else
      if ch = 34 ∨ ch = 92 ∨ ch = 47 then stringLoop rest false (stk ++ [ch]) head
      else if ch = 98 then stringLoop rest false (stk ++ [8]) head
      else if ch = 102 then stringLoop rest false (stk ++ [12]) head
      else if ch = 110 then stringLoop rest false (stk ++ [10]) head
      else if ch = 114 then stringLoop rest false (stk ++ [13]) head
      else if ch = 116 then stringLoop rest false (stk ++ [9]) head
      else .err .LEPT_PARSE_INVALID_STRING_ESCAPE (stk.take head)

/-- lept_parse_string of src/tutorial03/leptjson.c: record head, consume
the opening quote, run the loop; on success hand the popped bytes to
lept_set_string and advance the cursor; on failure the cursor stays after
the opening quote and the value is untouched. -/
def lept_parse_string (c : Ctx) (v : LeptValue) : PRes :=
  let head := c.stk.length
  let j0 := c.json.drop 1
  match stringLoop j0 false c.stk head with
  | .ok rest stk1 s len => ⟨.LEPT_PARSE_OK, ⟨rest, stk1⟩, lept_set_string v s len⟩
  | .err code stk1 => ⟨code, ⟨j0, stk1⟩, v⟩

/-- lept_parse_value: dispatch on the single byte at the cursor. -/
def lept_parse_value (c : Ctx) (v : LeptValue) : PRes :=
  let b := peek c.json
  if b = 116 then lept_parse_literal c v tokTrue .LEPT_TRUE
  else if b = 102 then lept_parse_literal c v tokFalse .LEPT_FALSE
  else if b = 110 then lept_parse_literal c v tokNull .LEPT_NULL
  else if b = 34 then lept_parse_string c v
  else if b = 0 then ⟨.LEPT_PARSE_EXPECT_VALUE, c, v⟩
  else lept_parse_number c v

/-- lept_parse of src/tutorial03/leptjson.c: fresh context with an empty
stack, reset the value, skip whitespace, parse one value; on success skip
trailing whitespace and reject anything left (ROOT_NOT_SINGULAR resets
the tag to null). -/
def lept_parse (v : LeptValue) (json : List Nat) : PRes :=
  let c0 : Ctx := ⟨lept_parse_whitespace json, []⟩
  let r := lept_parse_value c0 (lept_init v)
  if r.ret = .LEPT_PARSE_OK then
    let j2 := lept_parse_whitespace r.c.json
    if peek j2 = 0 then ⟨.LEPT_PARSE_OK, ⟨j2, r.c.stk⟩, r.v⟩
    else ⟨.LEPT_PARSE_ROOT_NOT_SINGULAR, ⟨j2, r.c.stk⟩, { r.v with type := .LEPT_NULL }⟩
  else r

/-! ## Basic facts about the byte-level predicates -/

theorem peek_nil : peek [] = 0 := rfl

theorem peek_cons (a : Nat) (l : List Nat) : peek (a :: l) = a := rfl

theorem ISDIGIT_iff (b : Nat) : ISDIGIT b = true ↔ 48 ≤ b % 256 ∧ b % 256 ≤ 57 := by
  unfold ISDIGIT schar
  split_ifs with h <;> simp only [Bool.and_eq_true, decide_eq_true_eq] <;> omega

theorem ISDIGIT1TO9_iff (b : Nat) : ISDIGIT1TO9 b = true ↔ 49 ≤ b % 256 ∧ b % 256 ≤ 57 := by
  unfold ISDIGIT1TO9 schar
  split_ifs with h <;> simp only [Bool.and_eq_true, decide_eq_true_eq] <;> omega

theorem strCharValid_iff (b : Nat) :
    strCharValid b = true ↔
      (32 ≤ b % 256 ∧ b % 256 ≤ 33) ∨ (35 ≤ b % 256 ∧ b % 256 ≤ 91) ∨
        (93 ≤ b % 256 ∧ b % 256 ≤ 127) := by
  unfold strCharValid schar
  split_ifs with h <;>
    simp only [Bool.or_eq_true, Bool.and_eq_true, decide_eq_true_eq] <;> omega

theorem isWS_false_of_digit {b : Nat} (h : ISDIGIT b = true) : isWS b = false := by
  rw [ISDIGIT_iff] at h
  unfold isWS
  simp only [Bool.or_eq_false_iff, decide_eq_false_iff_not]
  omega

/-! ## Facts about countDigits -/

theorem countDigits_nil : countDigits [] = 0 := rfl

theorem countDigits_cons_pos {a : Nat} (l : List Nat) (h : ISDIGIT a = true) :
    countDigits (a :: l) = 1 + countDigits l := by
  unfold countDigits
  rw [List.takeWhile_cons, if_pos h]
  simp [Nat.add_comm]

theorem countDigits_cons_neg {a : Nat} (l : List Nat) (h : ISDIGIT a = false) :
    countDigits (a :: l) = 0 := by
  unfold countDigits
  rw [List.takeWhile_cons, if_neg (by simp [h])]
  rfl

theorem countDigits_eq_zero {l : List Nat} (h : ISDIGIT (peek l) = false) :
    countDigits l = 0 := by
  cases l with
  | nil => rfl
  | cons a t => exact countDigits_cons_neg t h

theorem exists_cons_of_digit_peek {l : List Nat} (h : ISDIGIT (peek l) = true) :
    ∃ t, l = peek l :: t := by
  cases l with
  | nil => simp [peek, ISDIGIT, schar] at h
  | cons a t => exact ⟨t, rfl⟩

theorem countDigits_peek_pos {l : List Nat} (h : ISDIGIT (peek l) = true) :
    countDigits l = 1 + countDigits (l.drop 1) := by
  obtain ⟨t, ht⟩ := exists_cons_of_digit_peek h
  rw [ht]
  exact countDigits_cons_pos t h

theorem not_digit_peek_drop_countDigits (l : List Nat) :
    ISDIGIT (peek (l.drop (countDigits l))) = false := by
  induction l with
  | nil => rfl
  | cons a t ih =>
    by_cases h : ISDIGIT a = true
    · rw [countDigits_cons_pos t h, Nat.add_comm, List.drop_succ_cons]
      exact ih
    · rw [countDigits_cons_neg t (by simpa using h)]
      simpa [peek] using h

/-! ## Facts about the whitespace skipper -/

theorem dropWhile_isWS_nil_of_all {l : List Nat} (h : ∀ b ∈ l, isWS b = true) :
    l.dropWhile isWS = [] := by
  induction l with
  | nil => rfl
  | cons a t ih =>
    rw [List.dropWhile_cons, if_pos (h a (by simp))]
    exact ih fun b hb => h b (by simp [hb])

theorem dropWhile_isWS_append_of_all {l1 : List Nat} (l2 : List Nat)
    (h : ∀ b ∈ l1, isWS b = true) :
    (l1 ++ l2).dropWhile isWS = l2.dropWhile isWS := by
  induction l1 with
  | nil => rfl
  | cons a t ih =>
    rw [List.cons_append, List.dropWhile_cons, if_pos (h a (by simp))]
    exact ih fun b hb => h b (by simp [hb])

theorem dropWhile_isWS_cons_of_neg {a : Nat} (l : List Nat) (h : isWS a = false) :
    (a :: l).dropWhile isWS = a :: l := by
  rw [List.dropWhile_cons, if_neg (by simp [h])]

/-! ## Facts about the literal matcher -/

theorem matchTail_append_self (xs rest : List Nat) : matchTail (xs ++ rest) xs = true := by
  induction xs generalizing rest with
  | nil => rfl
  | cons x t ih =>
    rw [List.cons_append]
    unfold matchTail
    rw [peek_cons, if_pos rfl]
    simpa using ih rest

theorem matchTail_true_take {xs : List Nat} (hnz : ∀ x ∈ xs, x ≠ 0) :
    ∀ j, matchTail j xs = true → j.take xs.length = xs := by
  induction xs with
  | nil => intro j _; rfl
  | cons x t ih =>
    intro j hm
    unfold matchTail at hm
    by_cases hx : peek j = x
    · cases j with
      | nil => exact absurd hx.symm (hnz x (by simp))
      | cons a jt =>
        have hax : a = x := by simpa [peek] using hx
        rw [if_pos hx] at hm
        have ht := ih (fun y hy => hnz y (by simp [hy])) jt (by simpa using hm)
        simp [hax, List.take_succ_cons, ht]
    · rw [if_neg hx] at hm
      exact absurd hm (by simp)

/-! ## Facts about the string scanner -/

/-- The stack left behind by an outcome of the scanning loop. -/
def SLoop.stkOf : SLoop → List Nat
  | .ok _ stk _ _ => stk
  | .err _ stk => stk

theorem take_append_one (stk : List Nat) (x head : Nat) (h : head ≤ stk.length) :
    (stk ++ [x]).take head = stk.take head :=
  List.take_append_of_le_length h

theorem strCharValid_ne_zero {ch : Nat} (h : strCharValid ch = true) : ch ≠ 0 := by
  intro h0
  subst h0
  exact absurd h (by decide)

theorem stringLoop_stkOf (p : List Nat) :
    ∀ esc stk head, head ≤ stk.length → (stringLoop p esc stk head).stkOf = stk.take head := by
  induction p with
  | nil =>
    intro esc stk head h
    unfold stringLoop
    split_ifs <;> rfl
  | cons ch rest ih =>
    intro esc stk head h
    have hg : ∀ x : Nat, head ≤ (stk ++ [x]).length := by
      intro x
      simp only [List.length_append, List.length_cons, List.length_nil]
      omega
    unfold stringLoop
    split_ifs <;>
      first
      | rfl
      | (rw [ih _ stk head h])
      | (rw [ih _ _ head (hg _)]; exact take_append_one stk _ head h)

/-! ## Stack and value preservation through the dispatcher -/

theorem lept_parse_literal_stk (c : Ctx) (v : LeptValue) (lit : List Nat) (t : LeptType) :
    (lept_parse_literal c v lit t).c.stk = c.stk := by
  unfold lept_parse_literal
  dsimp only
  split_ifs <;> rfl

theorem lept_parse_number_stk (c : Ctx) (v : LeptValue) :
    (lept_parse_number c v).c.stk = c.stk := by
  unfold lept_parse_number
  cases hnt : numberTokenLen c.json with
  | none => rfl
  | some n =>
    dsimp only
    split_ifs <;> rfl

theorem lept_parse_string_stk (c : Ctx) (v : LeptValue) :
    (lept_parse_string c v).c.stk = c.stk := by
  have hs := stringLoop_stkOf (c.json.drop 1) false c.stk c.stk.length (le_refl _)
  unfold lept_parse_string
  dsimp only
  cases hsl : stringLoop (c.json.drop 1) false c.stk c.stk.length with
  | ok j stk1 s len =>
    rw [hsl] at hs
    simpa [SLoop.stkOf] using hs
  | err code stk1 =>
    rw [hsl] at hs
    simpa [SLoop.stkOf] using hs

theorem lept_parse_value_stk (c : Ctx) (v : LeptValue) :
    (lept_parse_value c v).c.stk = c.stk := by
  unfold lept_parse_value
  dsimp only
  split_ifs with h1 h2 h3 h4 h5
  · exact lept_parse_literal_stk ..
  · exact lept_parse_literal_stk ..
  · exact lept_parse_literal_stk ..
  · exact lept_parse_string_stk ..
  · rfl
  · exact lept_parse_number_stk ..

theorem lept_parse_literal_ok_or_type (c : Ctx) (v : LeptValue) (lit : List Nat) (t : LeptType) :
    (lept_parse_literal c v lit t).ret = .LEPT_PARSE_OK ∨
      (lept_parse_literal c v lit t).v.type = v.type := by
  unfold lept_parse_literal
  dsimp only
  split_ifs
  · exact Or.inl rfl
  · exact Or.inr rfl

theorem lept_parse_number_ok_or_type (c : Ctx) (v : LeptValue) :
    (lept_parse_number c v).ret = .LEPT_PARSE_OK ∨
      (lept_parse_number c v).v.type = v.type := by
  unfold lept_parse_number
  cases hnt : numberTokenLen c.json with
  | none => exact Or.inr rfl
  | some n =>
    dsimp only
    split_ifs
    · exact Or.inr rfl
    · exact Or.inl rfl

theorem lept_parse_string_ok_or_type (c : Ctx) (v : LeptValue) :
    (lept_parse_string c v).ret = .LEPT_PARSE_OK ∨
      (lept_parse_string c v).v.type = v.type := by
  unfold lept_parse_string
  dsimp only
  cases hsl : stringLoop (c.json.drop 1) false c.stk c.stk.length with
  | ok j stk1 s len => exact Or.inl rfl
  | err code stk1 => exact Or.inr rfl

theorem lept_parse_value_ok_or_type (c : Ctx) (v : LeptValue) :
    (lept_parse_value c v).ret = .LEPT_PARSE_OK ∨ (lept_parse_value c v).v.type = v.type := by
  unfold lept_parse_value
  dsimp only
  split_ifs with h1 h2 h3 h4 h5
  · exact lept_parse_literal_ok_or_type ..
  · exact lept_parse_literal_ok_or_type ..
  · exact lept_parse_literal_ok_or_type ..
  · exact lept_parse_string_ok_or_type ..
  · exact Or.inr rfl
  · exact lept_parse_number_ok_or_type ..

/-! ## The decoded string payload never holds a NUL byte -/

theorem le_length_append_one {stk : List Nat} {head : Nat} (h : head ≤ stk.length) (x : Nat) :
    head ≤ (stk ++ [x]).length := by
  simp only [List.length_append, List.length_cons, List.length_nil]
  omega

theorem pushZ {stk : List Nat} {head : Nat} {x : Nat} (h : head ≤ stk.length)
    (hz : ∀ b ∈ stk.drop head, b ≠ 0) (hx : x ≠ 0) :
    ∀ b ∈ (stk ++ [x]).drop head, b ≠ 0 := by
  intro b hb
  rw [List.drop_append_of_le_length h] at hb
  rcases List.mem_append.mp hb with h1 | h1
  · exact hz b h1
  · simp only [List.mem_singleton] at h1
    subst h1
    exact hx

theorem stringLoop_ok_payload (p : List Nat) :
    ∀ esc stk head, head ≤ stk.length → (∀ b ∈ stk.drop head, b ≠ 0) →
      ∀ j stk1 s len, stringLoop p esc stk head = .ok j stk1 s len →
        (∀ b ∈ s, b ≠ 0) ∧ s.length = len := by
  induction p with
  | nil =>
    intro esc stk head h hz j stk1 s len hok
    unfold stringLoop at hok
    split_ifs at hok
  | cons ch rest ih =>
    intro esc stk head h hz j stk1 s len hok
    unfold stringLoop at hok
    by_cases he : esc = false
    · rw [if_pos he] at hok
      by_cases h34 : ch = 34
      · rw [if_pos h34] at hok
        injection hok with hj hstk hs hlen
        subst hs
        subst hlen
        exact ⟨hz, List.length_drop ..⟩
      · rw [if_neg h34] at hok
        by_cases h0 : ch = 0
        · rw [if_pos h0] at hok
          cases hok
        · rw [if_neg h0] at hok
          by_cases h92 : ch = 92
          · rw [if_pos h92] at hok
            exact ih true stk head h hz j stk1 s len hok
          · rw [if_neg h92] at hok
            by_cases hv : strCharValid ch = true
            · rw [if_pos hv] at hok
              exact ih false (stk ++ [ch]) head (le_length_append_one h ch)
                (pushZ h hz (strCharValid_ne_zero hv)) j stk1 s len hok
            · rw [if_neg hv] at hok
              cases hok
    · rw [if_neg he] at hok
      by_cases hc1 : ch = 34 ∨ ch = 92 ∨ ch = 47
      · rw [if_pos hc1] at hok
        have hcne : ch ≠ 0 := by rcases hc1 with h9 | h9 | h9 <;> omega
        exact ih false (stk ++ [ch]) head (le_length_append_one h ch) (pushZ h hz hcne)
          j stk1 s len hok
      · rw [if_neg hc1] at hok
        by_cases hb : ch = 98
        · rw [if_pos hb] at hok
          exact ih false (stk ++ [8]) head (le_length_append_one h 8) (pushZ h hz (by omega))
            j stk1 s len hok
        · rw [if_neg hb] at hok
          by_cases hf : ch = 102
          · rw [if_pos hf] at hok
            exact ih false (stk ++ [12]) head (le_length_append_one h 12) (pushZ h hz (by omega))
              j stk1 s len hok
          · rw [if_neg hf] at hok
            by_cases hn : ch = 110
            · rw [if_pos hn] at hok
              exact ih false (stk ++ [10]) head (le_length_append_one h 10)
                (pushZ h hz (by omega)) j stk1 s len hok
            · rw [if_neg hn] at hok
              by_cases hr : ch = 114
              · rw [if_pos hr] at hok
                exact ih false (stk ++ [13]) head (le_length_append_one h 13)
                  (pushZ h hz (by omega)) j stk1 s len hok
              · rw [if_neg hr] at hok
                by_cases ht : ch = 116
                · rw [if_pos ht] at hok
                  exact ih false (stk ++ [9]) head (le_length_append_one h 9)
                    (pushZ h hz (by omega)) j stk1 s len hok
                · rw [if_neg ht] at hok
                  cases hok

theorem lept_parse_literal_type_cases (c : Ctx) (v : LeptValue) (lit : List Nat) (t : LeptType) :
    (lept_parse_literal c v lit t).v.type = t ∨ (lept_parse_literal c v lit t).v.type = v.type := by
  unfold lept_parse_literal
  dsimp only
  split_ifs
  · exact Or.inl rfl
  · exact Or.inr rfl

theorem lept_parse_number_type_cases (c : Ctx) (v : LeptValue) :
    (lept_parse_number c v).v.type = .LEPT_NUMBER ∨
      (lept_parse_number c v).v.type = v.type := by
  unfold lept_parse_number
  cases hnt : numberTokenLen c.json with
  | none => exact Or.inr rfl
  | some n =>
    dsimp only
    split_ifs
    · exact Or.inr rfl
    · exact Or.inl rfl

theorem lept_parse_value_cases (c : Ctx) (v : LeptValue) :
    (lept_parse_value c v).v.type = v.type ∨
      (lept_parse_value c v).v.type = .LEPT_TRUE ∨
      (lept_parse_value c v).v.type = .LEPT_FALSE ∨
      (lept_parse_value c v).v.type = .LEPT_NULL ∨
      (lept_parse_value c v).v.type = .LEPT_NUMBER ∨
      ∃ j stk1 s len,
        stringLoop (c.json.drop 1) false c.stk c.stk.length = .ok j stk1 s len ∧
          (lept_parse_value c v).v = lept_set_string v s len := by
  unfold lept_parse_value
  dsimp only
  split_ifs with h1 h2 h3 h4 h5
  · rcases lept_parse_literal_type_cases c v tokTrue .LEPT_TRUE with ha | ha
    · exact Or.inr (Or.inl ha)
    · exact Or.inl ha
  · rcases lept_parse_literal_type_cases c v tokFalse .LEPT_FALSE with ha | ha
    · exact Or.inr (Or.inr (Or.inl ha))
    · exact Or.inl ha
  · rcases lept_parse_literal_type_cases c v tokNull .LEPT_NULL with ha | ha
    · exact Or.inr (Or.inr (Or.inr (Or.inl ha)))
    · exact Or.inl ha
  · unfold lept_parse_string
    dsimp only
    cases hsl : stringLoop (c.json.drop 1) false c.stk c.stk.length with
    | ok j stk1 s len =>
      exact Or.inr (Or.inr (Or.inr (Or.inr (Or.inr ⟨j, stk1, s, len, rfl, rfl⟩))))
    | err code stk1 => exact Or.inl rfl
  · exact Or.inl rfl
  · rcases lept_parse_number_type_cases c v with ha | ha
    · exact Or.inr (Or.inr (Or.inr (Or.inr (Or.inl ha))))
    · exact Or.inl ha

theorem cstrlen_append_zero {s : List Nat} (h : ∀ b ∈ s, b ≠ 0) :
    cstrlen (s ++ [0]) = s.length := by
  induction s with
  | nil => rfl
  | cons a t ih =>
    have ha : (a != 0) = true := by simpa using h a (by simp)
    simp only [List.cons_append, cstrlen, List.takeWhile_cons, ha, if_true, List.length_cons]
    have := ih fun b hb => h b (by simp [hb])
    simp only [cstrlen] at this
    omega

/-- C10: every successful parse of a string literal stores a payload with
no NUL byte within the reported length, and the backing block is exactly
that payload followed by one terminating NUL, so the pointer returned by
lept_get_string is a NUL-terminated C string whose strlen equals
lept_get_string_length. -/
theorem C10_string_payload_nul_terminated (v : LeptValue) (json : List Nat)
    (hret : (lept_parse v json).ret = .LEPT_PARSE_OK)
    (hty : (lept_parse v json).v.type = .LEPT_STRING) :
    (∀ b ∈ (lept_parse v json).v.sbuf.take (lept_parse v json).v.slen, b ≠ 0) ∧
      lept_get_string (lept_parse v json).v =
        (lept_parse v json).v.sbuf.take (lept_parse v json).v.slen ++ [0] ∧
      cstrlen (lept_get_string (lept_parse v json).v) =
        lept_get_string_length (lept_parse v json).v := by
  unfold lept_parse at hret hty ⊢
  dsimp only at hret hty ⊢
  by_cases hr :
      (lept_parse_value ⟨lept_parse_whitespace json, []⟩ (lept_init v)).ret = .LEPT_PARSE_OK
  · rw [if_pos hr] at hret hty ⊢
    by_cases hp :
        peek (lept_parse_whitespace
          (lept_parse_value ⟨lept_parse_whitespace json, []⟩ (lept_init v)).c.json) = 0
    · rw [if_pos hp] at hret hty ⊢
      dsimp only at hret hty ⊢
      rcases lept_parse_value_cases ⟨lept_parse_whitespace json, []⟩ (lept_init v) with
        ha | ha | ha | ha | ha | ⟨j, stk1, s, len, hsl, hveq⟩
      · rw [hty] at ha
        exact LeptType.noConfusion ha
      · rw [hty] at ha
        exact LeptType.noConfusion ha
      · rw [hty] at ha
        exact LeptType.noConfusion ha
      · rw [hty] at ha
        exact LeptType.noConfusion ha
      · rw [hty] at ha
        exact LeptType.noConfusion ha
      · obtain ⟨hs0, hslen⟩ :=
          stringLoop_ok_payload ((lept_parse_whitespace json).drop 1) false [] 0 (by simp)
            (by simp) j stk1 s len hsl
        rw [hveq]
        unfold lept_set_string lept_free
        dsimp only
        have htake : s.take len = s := by
          rw [← hslen]
          exact List.take_length ..
        have hfull : (s.take len ++ [0]).take len = s.take len := by
          rw [htake, ← hslen]
          exact List.take_left ..
        refine ⟨?_, ?_, ?_⟩
        · intro b hb
          rw [hfull, htake] at hb
          exact hs0 b hb
        · unfold lept_get_string
          rw [hfull]
        · unfold lept_get_string lept_get_string_length
          dsimp only
          rw [htake, cstrlen_append_zero hs0, hslen]
    · rw [if_neg hp] at hty
      dsimp only at hty
      exact LeptType.noConfusion hty
  · rw [if_neg hr] at hret
    exact absurd hret hr

/-- Witness for C10 at the concrete input with the text quote a quote. -/
theorem C10_string_payload_nul_terminated_witness :
    cstrlen (lept_get_string (lept_parse ⟨.LEPT_TRUE, .finite 7, [5], 9⟩ [34, 97, 34]).v) =
      lept_get_string_length (lept_parse ⟨.LEPT_TRUE, .finite 7, [5], 9⟩ [34, 97, 34]).v :=
  (C10_string_payload_nul_terminated ⟨.LEPT_TRUE, .finite 7, [5], 9⟩ [34, 97, 34]
    (by decide) (by decide)).2.2

/-! ## The Normal and Escaped states of the string scanner -/

theorem strCharValid_eq_false_of_ctrl {ch : Nat} (h : ch < 32) : strCharValid ch = false := by
  rw [Bool.eq_false_iff]
  intro hc
  rw [strCharValid_iff] at hc
  have hm : ch % 256 = ch := Nat.mod_eq_of_lt (by omega)
  omega

theorem strCharValid_eq_false_of_high {ch : Nat} (h1 : 128 ≤ ch) (h2 : ch ≤ 255) :
    strCharValid ch = false := by
  rw [Bool.eq_false_iff]
  intro hc
  rw [strCharValid_iff] at hc
  have hm : ch % 256 = ch := Nat.mod_eq_of_lt (by omega)
  omega

theorem strCharValid_eq_true_of_mid {ch : Nat} (h1 : 32 ≤ ch) (h2 : ch ≤ 127)
    (h34 : ch ≠ 34) (h92 : ch ≠ 92) : strCharValid ch = true := by
  rw [strCharValid_iff]
  have hm : ch % 256 = ch := Nat.mod_eq_of_lt (by omega)
  omega

/-- C4 counterexample: the input quote, byte 0x80, quote.  The byte 0x80
is at least 0x20 and is not the quote or the backslash, so the claim
requires it to be appended verbatim and the parse to succeed; the code
rejects it with InvalidStringChar, because the range comparisons are on
the signed char value -128. -/
theorem C4_counterexample_high_byte :
    (lept_parse ⟨.LEPT_NULL, .finite 0, [], 0⟩ [34, 128, 34]).ret =
        .LEPT_PARSE_INVALID_STRING_CHAR ∧
      (lept_parse ⟨.LEPT_NULL, .finite 0, [], 0⟩ [34, 128, 34]).ret ≠ .LEPT_PARSE_OK := by
  constructor <;> decide

/-- C4 (amended): in the Normal state, the NUL byte yields
MissingQuotationMark; any other byte below 0x20 yields InvalidStringChar
with the stack reset to head; a byte in 0x20..0x7F other than the quote
and the backslash is appended verbatim; a byte in 0x80..0xFF is rejected
with InvalidStringChar as well, because the comparisons are on the signed
char value. -/
theorem C4_normal_state_amended (ch : Nat) (rest stk : List Nat) (head : Nat)
    (h34 : ch ≠ 34) (h92 : ch ≠ 92) :
    (ch = 0 → stringLoop (ch :: rest) false stk head =
        .err .LEPT_PARSE_MISS_QUOTATION_MARK (stk.take head)) ∧
      (ch ≠ 0 → ch < 32 → stringLoop (ch :: rest) false stk head =
        .err .LEPT_PARSE_INVALID_STRING_CHAR (stk.take head)) ∧
      (32 ≤ ch → ch ≤ 127 → stringLoop (ch :: rest) false stk head =
        stringLoop rest false (stk ++ [ch]) head) ∧
      (128 ≤ ch → ch ≤ 255 → stringLoop (ch :: rest) false stk head =
        .err .LEPT_PARSE_INVALID_STRING_CHAR (stk.take head)) := by
  refine ⟨?_, ?_, ?_, ?_⟩
  · intro h0
    subst h0
    simp [stringLoop]
  · intro h0 hlt
    simp [stringLoop, h34, h92, h0, strCharValid_eq_false_of_ctrl hlt]
  · intro h1 h2
    simp [stringLoop, h34, h92, strCharValid_eq_true_of_mid h1 h2 h34 h92,
      show ch ≠ 0 by omega]
  · intro h1 h2
    simp [stringLoop, h34, h92, strCharValid_eq_false_of_high h1 h2,
      show ch ≠ 0 by omega]

/-- Witness for C4 (amended) at concrete bytes: 0x61 is appended verbatim
and the control byte 0x0A is rejected with InvalidStringChar. -/
theorem C4_normal_state_amended_witness :
    stringLoop [97, 34] false [] 0 = stringLoop [34] false [97] 0 ∧
      stringLoop [10, 34] false [] 0 =
        .err .LEPT_PARSE_INVALID_STRING_CHAR [] :=
  ⟨(C4_normal_state_amended 97 [34] [] 0 (by decide) (by decide)).2.2.1 (by decide) (by decide),
    (C4_normal_state_amended 10 [34] [] 0 (by decide) (by decide)).2.1 (by decide) (by decide)⟩

/-- C5: in the Escaped state, each of the eight escape characters decodes
to exactly one appended byte and the scanner returns to the Normal state;
any other byte after a backslash yields InvalidStringEscape with the
stack reset to head. -/
theorem C5_escape_table (b : Nat) (rest stk : List Nat) (head : Nat) :
    (stringLoop (34 :: rest) true stk head = stringLoop rest false (stk ++ [34]) head) ∧
      (stringLoop (92 :: rest) true stk head = stringLoop rest false (stk ++ [92]) head) ∧
      (stringLoop (47 :: rest) true stk head = stringLoop rest false (stk ++ [47]) head) ∧
      (stringLoop (98 :: rest) true stk head = stringLoop rest false (stk ++ [8]) head) ∧
      (stringLoop (102 :: rest) true stk head = stringLoop rest false (stk ++ [12]) head) ∧
      (stringLoop (110 :: rest) true stk head = stringLoop rest false (stk ++ [10]) head) ∧
      (stringLoop (114 :: rest) true stk head = stringLoop rest false (stk ++ [13]) head) ∧
      (stringLoop (116 :: rest) true stk head = stringLoop rest false (stk ++ [9]) head) ∧
      (b ∉ ([34, 92, 47, 98, 102, 110, 114, 116] : List Nat) →
        stringLoop (b :: rest) true stk head =
          .err .LEPT_PARSE_INVALID_STRING_ESCAPE (stk.take head)) := by
  refine ⟨by simp [stringLoop], by simp [stringLoop], by simp [stringLoop],
    by simp [stringLoop], by simp [stringLoop], by simp [stringLoop],
    by simp [stringLoop], by simp [stringLoop], ?_⟩
  intro hb
  simp only [List.mem_cons, List.not_mem_nil, or_false, not_or] at hb
  obtain ⟨n1, n2, n3, n4, n5, n6, n7, n8⟩ := hb
  simp [stringLoop, n1, n2, n3, n4, n5, n6, n7, n8]

/-- Witness for C5: the byte q after a backslash is rejected with
InvalidStringEscape. -/
theorem C5_escape_table_witness :
    stringLoop [113, 34] true [] 0 =
      .err .LEPT_PARSE_INVALID_STRING_ESCAPE [] :=
  (C5_escape_table 113 [34] [] 0).2.2.2.2.2.2.2.2 (by decide)

/-! ## The dispatcher -/

/-- C7: the value dispatcher is a total function of the single byte at
the cursor: t routes to the true literal, f to false, n to null, the
quote to the string scanner, end of input yields ExpectValue, and every
other byte is routed to the number scanner; consequently every input that
is empty or whitespace-only parses to ExpectValue. -/
theorem C7_dispatcher_total :
    (∀ c v, peek c.json = 116 →
        lept_parse_value c v = lept_parse_literal c v tokTrue .LEPT_TRUE) ∧
      (∀ c v, peek c.json = 102 →
        lept_parse_value c v = lept_parse_literal c v tokFalse .LEPT_FALSE) ∧
      (∀ c v, peek c.json = 110 →
        lept_parse_value c v = lept_parse_literal c v tokNull .LEPT_NULL) ∧
      (∀ c v, peek c.json = 34 → lept_parse_value c v = lept_parse_string c v) ∧
      (∀ c v, peek c.json = 0 → lept_parse_value c v = ⟨.LEPT_PARSE_EXPECT_VALUE, c, v⟩) ∧
      (∀ c v b, peek c.json = b → b ≠ 116 → b ≠ 102 → b ≠ 110 → b ≠ 34 → b ≠ 0 →
        lept_parse_value c v = lept_parse_number c v) ∧
      (∀ v ws, (∀ x ∈ ws, isWS x = true) →
        (lept_parse v ws).ret = .LEPT_PARSE_EXPECT_VALUE) := by
  refine ⟨?_, ?_, ?_, ?_, ?_, ?_, ?_⟩
  · intro c v h
    unfold lept_parse_value
    dsimp only
    rw [h]
    rfl
  · intro c v h
    unfold lept_parse_value
    dsimp only
    rw [h]
    rfl
  · intro c v h
    unfold lept_parse_value
    dsimp only
    rw [h]
    rfl
  · intro c v h
    unfold lept_parse_value
    dsimp only
    rw [h]
    rfl
  · intro c v h
    unfold lept_parse_value
    dsimp only
    rw [h]
    rfl
  · intro c v b h h1 h2 h3 h4 h5
    unfold lept_parse_value
    dsimp only
    rw [h, if_neg h1, if_neg h2, if_neg h3, if_neg h4, if_neg h5]
  · intro v ws hws
    have h0 : lept_parse_whitespace ws = [] := dropWhile_isWS_nil_of_all hws
    unfold lept_parse
    dsimp only
    rw [h0]
    rfl

/-- Witness for C7: the unparseable byte 0x5D is routed to the number
scanner, and a single space parses to ExpectValue. -/
theorem C7_dispatcher_total_witness :
    lept_parse_value ⟨[93], []⟩ ⟨.LEPT_NULL, .finite 0, [], 0⟩ =
        lept_parse_number ⟨[93], []⟩ ⟨.LEPT_NULL, .finite 0, [], 0⟩ ∧
      (lept_parse ⟨.LEPT_NULL, .finite 0, [], 0⟩ [32]).ret = .LEPT_PARSE_EXPECT_VALUE :=
  ⟨C7_dispatcher_total.2.2.2.2.2.1 ⟨[93], []⟩ ⟨.LEPT_NULL, .finite 0, [], 0⟩ 93 rfl
      (by decide) (by decide) (by decide) (by decide) (by decide),
    C7_dispatcher_total.2.2.2.2.2.2 ⟨.LEPT_NULL, .finite 0, [], 0⟩ [32] (by decide)⟩

/-! ## The literal matcher -/

theorem lept_parse_literal_exact (c : Ctx) (v : LeptValue) (lit rest : List Nat) (t : LeptType)
    (hne : lit ≠ []) (hjson : c.json = lit ++ rest) :
    lept_parse_literal c v lit t =
      ⟨.LEPT_PARSE_OK, { c with json := rest }, { v with type := t }⟩ := by
  obtain ⟨x, xs, hx⟩ : ∃ x xs, lit = x :: xs := by
    cases lit with
    | nil => exact absurd rfl hne
    | cons x xs => exact ⟨x, xs, rfl⟩
  subst hx
  unfold lept_parse_literal
  dsimp only
  rw [hjson]
  have hm : matchTail (((x :: xs) ++ rest).drop 1) ((x :: xs).drop 1) = true := by
    show matchTail (xs ++ rest) xs = true
    exact matchTail_append_self xs rest
  rw [if_pos hm, List.drop_left]

theorem lept_parse_literal_mismatch (c : Ctx) (v : LeptValue) (lit : List Nat) (t : LeptType)
    (hnz : ∀ x ∈ lit.drop 1, x ≠ 0) (h0 : peek lit ≠ 0) (hpk : peek c.json = peek lit)
    (hne : c.json.take lit.length ≠ lit) :
    (lept_parse_literal c v lit t).ret = .LEPT_PARSE_INVALID_VALUE := by
  unfold lept_parse_literal
  dsimp only
  split_ifs with hm
  · exfalso
    apply hne
    obtain ⟨x, xs, hx⟩ : ∃ x xs, lit = x :: xs := by
      cases lit with
      | nil => exact absurd rfl h0
      | cons x xs => exact ⟨x, xs, rfl⟩
    subst hx
    cases hj : c.json with
    | nil =>
      rw [hj] at hpk
      exact absurd hpk.symm h0
    | cons a jt =>
      rw [hj] at hpk hm
      have hax : a = x := hpk
      subst hax
      have hnz2 : ∀ y ∈ xs, y ≠ 0 := fun y hy => hnz y hy
      have hm2 : matchTail jt xs = true := hm
      have ht : jt.take xs.length = xs := matchTail_true_take hnz2 jt hm2
      rw [List.length_cons, List.take_succ_cons, ht]
  · rfl

theorem lept_parse_via_value (v : LeptValue) (json ws2 : List Nat) (v2 : LeptValue)
    (hval : lept_parse_value ⟨lept_parse_whitespace json, []⟩ (lept_init v) =
      ⟨.LEPT_PARSE_OK, ⟨ws2, []⟩, v2⟩)
    (hw2 : lept_parse_whitespace ws2 = []) :
    lept_parse v json = ⟨.LEPT_PARSE_OK, ⟨[], []⟩, v2⟩ := by
  unfold lept_parse
  dsimp only
  rw [hval]
  dsimp only
  rw [hw2]
  rfl

theorem lept_parse_value_true_ws (v : LeptValue) (ws2 : List Nat) :
    lept_parse_value ⟨tokTrue ++ ws2, []⟩ v =
      ⟨.LEPT_PARSE_OK, ⟨ws2, []⟩, { v with type := .LEPT_TRUE }⟩ := by
  have h := lept_parse_literal_exact ⟨tokTrue ++ ws2, []⟩ v tokTrue ws2 .LEPT_TRUE
    (by decide) rfl
  calc lept_parse_value ⟨tokTrue ++ ws2, []⟩ v
      = lept_parse_literal ⟨tokTrue ++ ws2, []⟩ v tokTrue .LEPT_TRUE := rfl
  _ = _ := h

theorem lept_parse_value_false_ws (v : LeptValue) (ws2 : List Nat) :
    lept_parse_value ⟨tokFalse ++ ws2, []⟩ v =
      ⟨.LEPT_PARSE_OK, ⟨ws2, []⟩, { v with type := .LEPT_FALSE }⟩ := by
  have h := lept_parse_literal_exact ⟨tokFalse ++ ws2, []⟩ v tokFalse ws2 .LEPT_FALSE
    (by decide) rfl
  calc lept_parse_value ⟨tokFalse ++ ws2, []⟩ v
      = lept_parse_literal ⟨tokFalse ++ ws2, []⟩ v tokFalse .LEPT_FALSE := rfl
  _ = _ := h

theorem lept_parse_value_null_ws (v : LeptValue) (ws2 : List Nat) :
    lept_parse_value ⟨tokNull ++ ws2, []⟩ v =
      ⟨.LEPT_PARSE_OK, ⟨ws2, []⟩, { v with type := .LEPT_NULL }⟩ := by
  have h := lept_parse_literal_exact ⟨tokNull ++ ws2, []⟩ v tokNull ws2 .LEPT_NULL
    (by decide) rfl
  calc lept_parse_value ⟨tokNull ++ ws2, []⟩ v
      = lept_parse_literal ⟨tokNull ++ ws2, []⟩ v tokNull .LEPT_NULL := rfl
  _ = _ := h

theorem ws_skip_to_token {ws1 : List Nat} (tok ws2 : List Nat)
    (h1 : ∀ x ∈ ws1, isWS x = true) (hhd : isWS (peek tok) = false) (hne : tok ≠ []) :
    lept_parse_whitespace (ws1 ++ (tok ++ ws2)) = tok ++ ws2 := by
  obtain ⟨x, xs, hx⟩ : ∃ x xs, tok = x :: xs := by
    cases tok with
    | nil => exact absurd rfl hne
    | cons x xs => exact ⟨x, xs, rfl⟩
  subst hx
  unfold lept_parse_whitespace
  rw [dropWhile_isWS_append_of_all _ h1, List.cons_append]
  exact dropWhile_isWS_cons_of_neg _ (by simpa [peek] using hhd)

/-- C6: every input that is exactly one of the literal tokens true, false,
null, optionally surrounded by whitespace, parses successfully with the
matching tag; the matcher advances the cursor by exactly the length of
the token on success; and any byte-for-byte mismatch of the expected
literal yields InvalidValue. -/
theorem C6_literal_tokens :
    (∀ (v : LeptValue) (ws1 ws2 : List Nat), (∀ x ∈ ws1, isWS x = true) →
        (∀ x ∈ ws2, isWS x = true) →
        lept_parse v (ws1 ++ (tokTrue ++ ws2)) =
          ⟨.LEPT_PARSE_OK, ⟨[], []⟩, { v with type := .LEPT_TRUE }⟩) ∧
      (∀ (v : LeptValue) (ws1 ws2 : List Nat), (∀ x ∈ ws1, isWS x = true) →
        (∀ x ∈ ws2, isWS x = true) →
        lept_parse v (ws1 ++ (tokFalse ++ ws2)) =
          ⟨.LEPT_PARSE_OK, ⟨[], []⟩, { v with type := .LEPT_FALSE }⟩) ∧
      (∀ (v : LeptValue) (ws1 ws2 : List Nat), (∀ x ∈ ws1, isWS x = true) →
        (∀ x ∈ ws2, isWS x = true) →
        lept_parse v (ws1 ++ (tokNull ++ ws2)) =
          ⟨.LEPT_PARSE_OK, ⟨[], []⟩, { v with type := .LEPT_NULL }⟩) ∧
      (∀ (c : Ctx) (v : LeptValue) (rest : List Nat) (lit : List Nat) (t : LeptType),
        ((lit, t) = (tokTrue, .LEPT_TRUE) ∨ (lit, t) = (tokFalse, .LEPT_FALSE) ∨
            (lit, t) = (tokNull, .LEPT_NULL)) →
        c.json = lit ++ rest →
        lept_parse_literal c v lit t =
          ⟨.LEPT_PARSE_OK, { c with json := rest }, { v with type := t }⟩) ∧
      (∀ (c : Ctx) (v : LeptValue) (lit : List Nat) (t : LeptType),
        ((lit, t) = (tokTrue, .LEPT_TRUE) ∨ (lit, t) = (tokFalse, .LEPT_FALSE) ∨
            (lit, t) = (tokNull, .LEPT_NULL)) →
        peek c.json = peek lit → c.json.take lit.length ≠ lit →
        (lept_parse_literal c v lit t).ret = .LEPT_PARSE_INVALID_VALUE) := by
  refine ⟨?_, ?_, ?_, ?_, ?_⟩
  · intro v ws1 ws2 h1 h2
    exact lept_parse_via_value v (ws1 ++ (tokTrue ++ ws2)) ws2 _
      (by rw [ws_skip_to_token tokTrue ws2 h1 (by decide) (by decide)]
          exact lept_parse_value_true_ws (lept_init v) ws2)
      (dropWhile_isWS_nil_of_all h2)
  · intro v ws1 ws2 h1 h2
    exact lept_parse_via_value v (ws1 ++ (tokFalse ++ ws2)) ws2 _
      (by rw [ws_skip_to_token tokFalse ws2 h1 (by decide) (by decide)]
          exact lept_parse_value_false_ws (lept_init v) ws2)
      (dropWhile_isWS_nil_of_all h2)
  · intro v ws1 ws2 h1 h2
    exact lept_parse_via_value v (ws1 ++ (tokNull ++ ws2)) ws2 _
      (by rw [ws_skip_to_token tokNull ws2 h1 (by decide) (by decide)]
          exact lept_parse_value_null_ws (lept_init v) ws2)
      (dropWhile_isWS_nil_of_all h2)
  · intro c v rest lit t hpair hjson
    rcases hpair with hp | hp | hp <;>
      (injection hp with hl ht; subst hl; subst ht;
        exact lept_parse_literal_exact c v _ rest _ (by decide) hjson)
  · intro c v lit t hpair hpk hne
    rcases hpair with hp | hp | hp <;>
      (injection hp with hl ht; subst hl; subst ht;
        exact lept_parse_literal_mismatch c v _ _ (by decide) (by decide) hpk hne)

/-- Witness for C6: a space-padded true literal parses with tag TRUE, and
the mismatching input t x is rejected with InvalidValue. -/
theorem C6_literal_tokens_witness :
    lept_parse ⟨.LEPT_NULL, .finite 0, [], 0⟩ ([32] ++ (tokTrue ++ [13])) =
        ⟨.LEPT_PARSE_OK, ⟨[], []⟩,
          ⟨.LEPT_TRUE, .finite 0, [], 0⟩⟩ ∧
      (lept_parse_literal ⟨[116, 120], []⟩ ⟨.LEPT_NULL, .finite 0, [], 0⟩ tokTrue
          .LEPT_TRUE).ret = .LEPT_PARSE_INVALID_VALUE :=
  ⟨C6_literal_tokens.1 ⟨.LEPT_NULL, .finite 0, [], 0⟩ [32] [13] (by decide) (by decide),
    C6_literal_tokens.2.2.2.2 ⟨[116, 120], []⟩ ⟨.LEPT_NULL, .finite 0, [], 0⟩ tokTrue
      .LEPT_TRUE (Or.inl rfl) (by decide) (by decide)⟩

/-! ## Leading zeros in the number grammar -/

/-- C1 counterexample: on the input 01 the parser does not return
InvalidValue; the number scanner accepts the single digit 0 as a complete
token and the driver then rejects the trailing digit as
RootNotSingular. -/
theorem C1_counterexample_leading_zero :
    (lept_parse ⟨.LEPT_NULL, .finite 0, [], 0⟩ [48, 49]).ret =
        .LEPT_PARSE_ROOT_NOT_SINGULAR ∧
      (lept_parse ⟨.LEPT_NULL, .finite 0, [], 0⟩ [48, 49]).ret ≠
        .LEPT_PARSE_INVALID_VALUE := by
  exact ⟨by decide, by decide⟩

/-- C1 (amended): an input whose first bytes are the digit 0 followed by
another digit is rejected, but with RootNotSingular rather than
InvalidValue: the scanner consumes the bare 0 as the whole token and the
driver rejects the trailing digit (when the conversion of the longer
digit string read by strtod overflows, NumberTooBig is returned instead,
which the hypotheses exclude). -/
theorem C1_leading_zero_amended (v : LeptValue) (d : Nat) (rest : List Nat)
    (hd : ISDIGIT d = true)
    (hn1 : (strtodModel (48 :: d :: rest)).val ≠ .posInf)
    (hn2 : (strtodModel (48 :: d :: rest)).val ≠ .negInf) :
    (lept_parse v (48 :: d :: rest)).ret = .LEPT_PARSE_ROOT_NOT_SINGULAR ∧
      (lept_parse v (48 :: d :: rest)).v.type = .LEPT_NULL := by
  have hm := (ISDIGIT_iff d).mp hd
  have h46 : d ≠ 46 := by intro h; subst h; omega
  have h101 : d ≠ 101 := by intro h; subst h; omega
  have h69 : d ≠ 69 := by intro h; subst h; omega
  have h0 : d ≠ 0 := by intro h; subst h; omega
  have hwd : isWS d = false := isWS_false_of_digit hd
  have hnt : numberTokenLen (48 :: d :: rest) = some 1 := by
    simp [numberTokenLen, intLen, fracLen, expLen, peek, h46, h101, h69]
  have hcond : ¬((strtodModel (48 :: d :: rest)).erange = true ∧
      ((strtodModel (48 :: d :: rest)).val = .posInf ∨
        (strtodModel (48 :: d :: rest)).val = .negInf)) := by
    rintro ⟨-, h | h⟩
    · exact hn1 h
    · exact hn2 h
  have hnum : lept_parse_number ⟨48 :: d :: rest, []⟩ (lept_init v) =
      ⟨.LEPT_PARSE_OK, ⟨d :: rest, []⟩,
        { lept_init v with
            n := (strtodModel (48 :: d :: rest)).val
            type := .LEPT_NUMBER }⟩ := by
    unfold lept_parse_number
    rw [hnt]
    dsimp only
    rw [if_neg hcond]
    rfl
  have hw1 : lept_parse_whitespace (48 :: d :: rest) = 48 :: d :: rest :=
    dropWhile_isWS_cons_of_neg _ (by decide)
  have hws2 : lept_parse_whitespace (d :: rest) = d :: rest :=
    dropWhile_isWS_cons_of_neg _ hwd
  have hdrv : lept_parse v (48 :: d :: rest) =
      ⟨.LEPT_PARSE_ROOT_NOT_SINGULAR, ⟨d :: rest, []⟩,
        { lept_init v with
            n := (strtodModel (48 :: d :: rest)).val
            type := .LEPT_NULL }⟩ := by
    unfold lept_parse
    dsimp only
    rw [hw1]
    have hv : lept_parse_value ⟨48 :: d :: rest, []⟩ (lept_init v) =
        lept_parse_number ⟨48 :: d :: rest, []⟩ (lept_init v) := rfl
    rw [hv, hnum]
    dsimp only
    rw [hws2, if_pos rfl, if_neg (show ¬peek (d :: rest) = 0 by simpa [peek] using h0)]
  rw [hdrv]
  exact ⟨rfl, rfl⟩

/-- Witness for C1 (amended) at the concrete input 01. -/
theorem C1_leading_zero_amended_witness :
    (lept_parse ⟨.LEPT_TRUE, .finite 7, [5], 9⟩ [48, 49]).ret =
        .LEPT_PARSE_ROOT_NOT_SINGULAR ∧
      (lept_parse ⟨.LEPT_TRUE, .finite 7, [5], 9⟩ [48, 49]).v.type = .LEPT_NULL :=
  C1_leading_zero_amended ⟨.LEPT_TRUE, .finite 7, [5], 9⟩ 49 [] (by decide)
    (by decide) (by decide)

/-! ## The number conversion -/

theorem ISDIGIT_of_1to9 {b : Nat} (h : ISDIGIT1TO9 b = true) : ISDIGIT b = true := by
  rw [ISDIGIT1TO9_iff] at h
  rw [ISDIGIT_iff]
  omega

theorem countDigits_drop1 {l : List Nat} (h : ISDIGIT (peek (l.drop 1)) = true) :
    countDigits (l.drop 1) = 1 + countDigits (l.drop 2) := by
  rw [countDigits_peek_pos h, List.drop_drop]

theorem numberTokenLen_inv {json : List Nat} {n : Nat} (h : numberTokenLen json = some n) :
    ∃ ip fp ep,
      intLen (json.drop (if peek json = 45 then 1 else 0)) = some ip ∧
        fracLen (json.drop ((if peek json = 45 then 1 else 0) + ip)) = some fp ∧
        expLen (json.drop ((if peek json = 45 then 1 else 0) + ip + fp)) = some ep ∧
        n = (if peek json = 45 then 1 else 0) + ip + fp + ep := by
  unfold numberTokenLen at h
  dsimp only at h
  cases hint : intLen (json.drop (if peek json = 45 then 1 else 0)) with
  | none => rw [hint] at h; exact Option.noConfusion h
  | some ip =>
    rw [hint] at h
    dsimp only at h
    cases hfrac : fracLen (json.drop ((if peek json = 45 then 1 else 0) + ip)) with
    | none => rw [hfrac] at h; exact Option.noConfusion h
    | some fp =>
      rw [hfrac] at h
      dsimp only at h
      cases hexp : expLen (json.drop ((if peek json = 45 then 1 else 0) + ip + fp)) with
      | none => rw [hexp] at h; exact Option.noConfusion h
      | some ep =>
        rw [hexp] at h
        dsimp only at h
        injection h with h
        exact ⟨ip, fp, ep, rfl, hfrac, hexp, h.symm⟩

theorem intLen_inv {l : List Nat} {ip : Nat} (h : intLen l = some ip) :
    (peek l = 48 ∧ ip = 1) ∨
      (peek l ≠ 48 ∧ ISDIGIT1TO9 (peek l) = true ∧ ip = 1 + countDigits (l.drop 1)) := by
  unfold intLen at h
  split_ifs at h with h1 h2
  · injection h with h
    exact Or.inl ⟨h1, h.symm⟩
  · injection h with h
    exact Or.inr ⟨h1, h2, h.symm⟩

theorem fracLen_inv {l : List Nat} {fp : Nat} (h : fracLen l = some fp) :
    (peek l = 46 ∧ ISDIGIT (peek (l.drop 1)) = true ∧ fp = 2 + countDigits (l.drop 2)) ∨
      (peek l ≠ 46 ∧ fp = 0) := by
  unfold fracLen at h
  split_ifs at h with h1 h2
  · injection h with h
    exact Or.inl ⟨h1, h2, h.symm⟩
  · injection h with h
    exact Or.inr ⟨h1, h.symm⟩

theorem expLen_inv {l : List Nat} {ep : Nat} (h : expLen l = some ep) :
    ((peek l = 101 ∨ peek l = 69) ∧
        ∃ es, (es = if peek (l.drop 1) = 43 ∨ peek (l.drop 1) = 45 then 1 else 0) ∧
          ISDIGIT (peek (l.drop (1 + es))) = true ∧
          ep = 1 + es + 1 + countDigits (l.drop (1 + es + 1))) ∨
      ((peek l ≠ 101 ∧ peek l ≠ 69) ∧ ep = 0) := by
  unfold expLen at h
  dsimp only at h
  by_cases h1 : peek l = 101 ∨ peek l = 69
  · rw [if_pos h1] at h
    by_cases h2 : peek (l.drop 1) = 43 ∨ peek (l.drop 1) = 45
    · rw [if_pos h2] at h
      by_cases h3 : ISDIGIT (peek (l.drop (1 + 1))) = true
      · rw [if_pos h3] at h
        injection h with h
        refine Or.inl ⟨h1, 1, ?_, h3, h.symm⟩
        rw [if_pos h2]
      · rw [if_neg h3] at h
        exact Option.noConfusion h
    · rw [if_neg h2] at h
      by_cases h3 : ISDIGIT (peek (l.drop (1 + 0))) = true
      · rw [if_pos h3] at h
        injection h with h
        refine Or.inl ⟨h1, 0, ?_, h3, h.symm⟩
        rw [if_neg h2]
      · rw [if_neg h3] at h
        exact Option.noConfusion h
  · rw [if_neg h1] at h
    injection h with h
    exact Or.inr ⟨⟨fun hx => h1 (Or.inl hx), fun hx => h1 (Or.inr hx)⟩, h.symm⟩

theorem sdFinish_used (neg : Bool) (m : Nat) (ex : Int) (used : Nat) :
    (sdFinish neg m ex used).used = used := by
  unfold sdFinish
  split_ifs <;> rfl

theorem sdFinish_classify (neg : Bool) (m : Nat) (ex : Int) (used : Nat) :
    ((sdFinish neg m ex used).erange = true ∧
        ((sdFinish neg m ex used).val = .posInf ∨ (sdFinish neg m ex used).val = .negInf)) ∨
      ((sdFinish neg m ex used).erange = true ∧ (sdFinish neg m ex used).val = .finite 0) ∨
      ((sdFinish neg m ex used).erange = false ∧
        ∃ q, (sdFinish neg m ex used).val = .finite q) := by
  unfold sdFinish
  split_ifs
  · exact Or.inl ⟨rfl, Or.inr rfl⟩
  · exact Or.inl ⟨rfl, Or.inl rfl⟩
  · exact Or.inr (Or.inr ⟨rfl, 0, rfl⟩)
  · exact Or.inr (Or.inl ⟨rfl, rfl⟩)
  · exact Or.inr (Or.inr ⟨rfl, _, rfl⟩)

theorem strtodModel_used (l : List Nat) (s : Nat)
    (hsgn : (if peek l = 45 ∨ peek l = 43 then 1 else 0) = s)
    (hne : countDigits (l.drop s) ≠ 0) :
    (strtodModel l).used =
      s + countDigits (l.drop s) + sdFracBytes ((l.drop s).drop (countDigits (l.drop s))) +
        (sdExpPart (((l.drop s).drop (countDigits (l.drop s))).drop
          (sdFracBytes ((l.drop s).drop (countDigits (l.drop s)))))).1 := by
  unfold strtodModel
  dsimp only
  rw [hsgn]
  split_ifs with h1
  · exfalso
    have hx : countDigits (l.drop s) +
        (sdFracDigits ((l.drop s).drop (countDigits (l.drop s)))).length = 0 := h1
    omega
  · exact sdFinish_used ..

theorem strtodModel_classify (l : List Nat) :
    ((strtodModel l).erange = true ∧
        ((strtodModel l).val = .posInf ∨ (strtodModel l).val = .negInf)) ∨
      ((strtodModel l).erange = true ∧ (strtodModel l).val = .finite 0) ∨
      ((strtodModel l).erange = false ∧ ∃ q, (strtodModel l).val = .finite q) := by
  unfold strtodModel
  dsimp only
  by_cases hs : peek l = 45 ∨ peek l = 43
  · rw [if_pos hs]
    split_ifs with h1
    · exact Or.inr (Or.inr ⟨rfl, 0, rfl⟩)
    · exact sdFinish_classify ..
  · rw [if_neg hs]
    split_ifs with h1
    · exact Or.inr (Or.inr ⟨rfl, 0, rfl⟩)
    · exact sdFinish_classify ..

theorem strtod_reads_token {json : List Nat} {n : Nat} (h : numberTokenLen json = some n)
    (hnd : ISDIGIT (peek (json.drop n)) = false) : (strtodModel json).used = n := by
  obtain ⟨ip, fp, ep, hint, hfrac, hexp, hn⟩ := numberTokenLen_inv h
  set s : Nat := if peek json = 45 then 1 else 0 with hs
  have hip1 : 1 ≤ ip := by
    rcases intLen_inv hint with ⟨-, hip⟩ | ⟨-, -, hip⟩ <;> omega
  have hs' : (if peek json = 45 ∨ peek json = 43 then 1 else 0) = s := by
    by_cases h45 : peek json = 45
    · rw [if_pos (Or.inl h45), hs, if_pos h45]
    · have h43 : peek json ≠ 43 := by
        intro h43
        have hs0 : s = 0 := by rw [hs, if_neg h45]
        rw [hs0, List.drop_zero] at hint
        rcases intLen_inv hint with ⟨h48, -⟩ | ⟨-, h19, -⟩
        · rw [h43] at h48
          exact absurd h48 (by decide)
        · rw [h43] at h19
          exact absurd h19 (by decide)
      rw [if_neg (by rintro (hx | hx); exacts [h45 hx, h43 hx]), hs, if_neg h45]
  have hL2 : (json.drop s).drop ip = json.drop (s + ip) := List.drop_drop ..
  have hL3 : (json.drop (s + ip)).drop fp = json.drop (s + ip + fp) := List.drop_drop ..
  have hD : countDigits (json.drop s) = ip := by
    rcases intLen_inv hint with ⟨h48, hip⟩ | ⟨-, h19, hip⟩
    · have hdig48 : ISDIGIT (peek (json.drop s)) = true := by rw [h48]; decide
      subst hip
      rw [countDigits_peek_pos hdig48]
      have hstop : ISDIGIT (peek ((json.drop s).drop 1)) = false := by
        have hdd : (json.drop s).drop 1 = json.drop (s + 1) := List.drop_drop ..
        rw [hdd]
        rcases fracLen_inv hfrac with ⟨h46, -, -⟩ | ⟨-, hfp0⟩
        · rw [h46]; decide
        · subst hfp0
          rcases expLen_inv hexp with ⟨he, -⟩ | ⟨⟨-, -⟩, hep0⟩
          · have h1 : json.drop (s + 1 + 0) = json.drop (s + 1) := by norm_num
            rw [h1] at he
            rcases he with he | he <;> rw [he] <;> decide
          · subst hep0
            have h1 : n = s + 1 := by omega
            rw [h1] at hnd
            exact hnd
      rw [countDigits_eq_zero hstop]
    · rw [countDigits_peek_pos (ISDIGIT_of_1to9 h19), hip]
  have hF : sdFracBytes (json.drop (s + ip)) = fp := by
    rcases fracLen_inv hfrac with ⟨h46, hdig, hfp⟩ | ⟨h46n, hfp⟩
    · unfold sdFracBytes
      rw [if_pos h46, countDigits_drop1 hdig, hfp]
      omega
    · unfold sdFracBytes
      rw [if_neg h46n, hfp]
  have hE : (sdExpPart (json.drop (s + ip + fp))).1 = ep := by
    rcases expLen_inv hexp with ⟨he, es, hes, hdig2, hep⟩ | ⟨⟨hne1, hne2⟩, hep⟩
    · unfold sdExpPart
      rw [if_pos he]
      dsimp only
      rw [← hes]
      have hlen :
          (((json.drop (s + ip + fp)).drop (1 + es)).takeWhile ISDIGIT).length =
            1 + countDigits ((json.drop (s + ip + fp)).drop (1 + es + 1)) := by
        have h2 := countDigits_peek_pos hdig2
        rw [show ((json.drop (s + ip + fp)).drop (1 + es)).drop 1 =
            (json.drop (s + ip + fp)).drop (1 + es + 1) from List.drop_drop ..] at h2
        exact h2
      rw [if_neg (by rw [hlen]; omega)]
      dsimp only
      rw [hlen, hep]
      omega
    · unfold sdExpPart
      rw [if_neg (by rintro (hx | hx); exacts [hne1 hx, hne2 hx]), hep]
  have hne : countDigits (json.drop s) ≠ 0 := by
    rw [hD]
    omega
  rw [strtodModel_used json s hs' hne, hD, hL2, hF, hL3, hE]
  omega

theorem lept_parse_number_overflow (c : Ctx) (v : LeptValue) (n : Nat)
    (hn : numberTokenLen c.json = some n)
    (hinf : (strtodModel c.json).val = .posInf ∨ (strtodModel c.json).val = .negInf) :
    lept_parse_number c v =
      ⟨.LEPT_PARSE_NUMBER_TOO_BIG, c, { v with n := (strtodModel c.json).val }⟩ := by
  have her : (strtodModel c.json).erange = true := by
    rcases strtodModel_classify c.json with ⟨he, -⟩ | ⟨he, -⟩ | ⟨-, q, hq⟩
    · exact he
    · exact he
    · rcases hinf with hx | hx <;> rw [hq] at hx <;> exact FloatVal.noConfusion hx
  unfold lept_parse_number
  rw [hn]
  dsimp only
  rw [if_pos ⟨her, hinf⟩]

theorem lept_parse_number_success (c : Ctx) (v : LeptValue) (n : Nat) (q : ℚ)
    (hn : numberTokenLen c.json = some n)
    (hq : (strtodModel c.json).val = .finite q) :
    lept_parse_number c v =
      ⟨.LEPT_PARSE_OK, { c with json := c.json.drop n },
        { v with
            n := .finite q
            type := .LEPT_NUMBER }⟩ := by
  have hni : ¬((strtodModel c.json).erange = true ∧
      ((strtodModel c.json).val = .posInf ∨ (strtodModel c.json).val = .negInf)) := by
    rintro ⟨-, hx | hx⟩ <;> rw [hq] at hx <;> exact FloatVal.noConfusion hx
  unfold lept_parse_number
  rw [hn]
  dsimp only
  rw [if_neg hni, hq]

theorem strtodModel_underflow_zero (l : List Nat) (q : ℚ)
    (her : (strtodModel l).erange = true) (hq : (strtodModel l).val = .finite q) : q = 0 := by
  rcases strtodModel_classify l with ⟨-, hx | hx⟩ | ⟨-, h0⟩ | ⟨he, -⟩
  · rw [hq] at hx
    exact FloatVal.noConfusion hx
  · rw [hq] at hx
    exact FloatVal.noConfusion hx
  · rw [hq] at h0
    injection h0
  · rw [her] at he
    exact Bool.noConfusion he

theorem lept_parse_number3_neg_overflow (json : List Nat) (v : LeptValue) (n : Nat)
    (hn : numberTokenLen json = some n)
    (hq : (strtodModel json).val = .negInf) :
    lept_parse_number3 json v =
      (.LEPT_PARSE_OK, json.drop n,
        { v with
            n := .negInf
            type := .LEPT_NUMBER }) := by
  have hni : ¬((strtodModel json).erange = true ∧ (strtodModel json).val = .posInf) := by
    rintro ⟨-, hx⟩
    rw [hq] at hx
    exact FloatVal.noConfusion hx
  unfold lept_parse_number3
  rw [hn]
  dsimp only
  rw [if_neg hni, hq]

/-- C3 counterexample, two parts.  First, the conversion is not of the
exact consumed substring: on the input 01e400 the grammar token is the
single digit 0, whose conversion cannot overflow, yet strtod reads the
whole remaining text 01e400 and the parse returns NumberTooBig.  Second,
lept_parse_number3 of tutorial02 checks only the positive HUGE_VAL, so on
-1e400 it returns OK with the number set to negative infinity instead of
NumberTooBig. -/
theorem C3_counterexample_conversion :
    (lept_parse ⟨.LEPT_NULL, .finite 0, [], 0⟩ [48, 49, 101, 52, 48, 48]).ret =
        .LEPT_PARSE_NUMBER_TOO_BIG ∧
      numberTokenLen [48, 49, 101, 52, 48, 48] = some 1 ∧
      lept_parse_number3 [45, 49, 101, 52, 48, 48] ⟨.LEPT_NULL, .finite 0, [], 0⟩ =
        (.LEPT_PARSE_OK, [], ⟨.LEPT_NUMBER, .negInf, [], 0⟩) := by
  refine ⟨by decide, by decide, by decide⟩

/-- C3 (amended): for every grammar-valid number token, when the byte
after the token is not a digit, strtod reads exactly the consumed
substring; an overflow to an infinite magnitude in either direction makes
tutorial03 lept_parse_number return NumberTooBig; a finite conversion
succeeds with the converted value and the cursor advanced by the token
length; underflow is accepted silently with the value zero.  In
tutorial02, lept_parse_number3 detects only the positive overflow: a
conversion to negative infinity is returned as a successful Number.
(When the token is a bare zero followed by more digits, strtod reads
beyond the token and the parse can report NumberTooBig for the longer
digit string, as the counterexample shows.) -/
theorem C3_number_conversion_amended :
    (∀ (json : List Nat) (n : Nat), numberTokenLen json = some n →
        ISDIGIT (peek (json.drop n)) = false → (strtodModel json).used = n) ∧
      (∀ (c : Ctx) (v : LeptValue) (n : Nat), numberTokenLen c.json = some n →
        ((strtodModel c.json).val = .posInf ∨ (strtodModel c.json).val = .negInf) →
        lept_parse_number c v =
          ⟨.LEPT_PARSE_NUMBER_TOO_BIG, c, { v with n := (strtodModel c.json).val }⟩) ∧
      (∀ (c : Ctx) (v : LeptValue) (n : Nat) (q : ℚ), numberTokenLen c.json = some n →
        (strtodModel c.json).val = .finite q →
        lept_parse_number c v =
          ⟨.LEPT_PARSE_OK, { c with json := c.json.drop n },
            { v with
                n := .finite q
                type := .LEPT_NUMBER }⟩) ∧
      (∀ (l : List Nat) (q : ℚ), (strtodModel l).erange = true →
        (strtodModel l).val = .finite q → q = 0) ∧
      (∀ (json : List Nat) (v : LeptValue) (n : Nat), numberTokenLen json = some n →
        (strtodModel json).val = .negInf →
        lept_parse_number3 json v =
          (.LEPT_PARSE_OK, json.drop n,
            { v with
                n := .negInf
                type := .LEPT_NUMBER })) :=
  ⟨fun _ _ h hnd => strtod_reads_token h hnd,
    lept_parse_number_overflow,
    lept_parse_number_success,
    strtodModel_underflow_zero,
    lept_parse_number3_neg_overflow⟩

/-- Witness for C3 (amended): on the token 1.5 the conversion reads
exactly three bytes; on 1e400 the scanner returns NumberTooBig; on
1e-400 underflow yields the value zero. -/
theorem C3_number_conversion_amended_witness :
    (strtodModel [49, 46, 53]).used = 3 ∧
      (lept_parse_number ⟨[49, 101, 52, 48, 48], []⟩ ⟨.LEPT_NULL, .finite 0, [], 0⟩).ret =
        .LEPT_PARSE_NUMBER_TOO_BIG ∧
      (lept_parse_number ⟨[49, 101, 45, 52, 48, 48], []⟩ ⟨.LEPT_NULL, .finite 0, [], 0⟩).v.n =
        .finite 0 :=
  ⟨C3_number_conversion_amended.1 [49, 46, 53] 3 (by decide) (by decide),
    by
      rw [C3_number_conversion_amended.2.1 ⟨[49, 101, 52, 48, 48], []⟩
        ⟨.LEPT_NULL, .finite 0, [], 0⟩ 5 (by decide) (Or.inl (by decide))]
    ,
    by
      rw [C3_number_conversion_amended.2.2.1 ⟨[49, 101, 45, 52, 48, 48], []⟩
        ⟨.LEPT_NULL, .finite 0, [], 0⟩ 6 0 (by decide) (by decide)]⟩

/-- C2: for every input on which lept_parse returns an error code, the
output Value is in the Null state after the call: no error path leaves
the Value holding a number, string, or boolean tag. -/
theorem C2_error_leaves_value_null (v : LeptValue) (json : List Nat)
    (h : (lept_parse v json).ret ≠ .LEPT_PARSE_OK) :
    (lept_parse v json).v.type = .LEPT_NULL := by
  unfold lept_parse at h ⊢
  dsimp only at h ⊢
  split_ifs at h ⊢ with hr hp
  · exact absurd rfl h
  · rfl
  · rcases lept_parse_value_ok_or_type ⟨lept_parse_whitespace json, []⟩ (lept_init v) with
      hok | hty
    · exact absurd hok hr
    · exact hty

/-- Witness for C2 at the concrete input "x", rejected as InvalidValue. -/
theorem C2_error_leaves_value_null_witness :
    (lept_parse ⟨.LEPT_TRUE, .finite 7, [5], 9⟩ [120]).v.type = .LEPT_NULL :=
  C2_error_leaves_value_null ⟨.LEPT_TRUE, .finite 7, [5], 9⟩ [120] (by decide)

/-- C8: the scratch stack is empty at the start of every top-level parse
call (the driver builds the context with an empty stack) and empty again
at the end, for every input and every outcome: the string scanner pops
exactly what it pushed on success and resets to its mark on failure. -/
theorem C8_stack_drained_after_parse (v : LeptValue) (json : List Nat) :
    (lept_parse v json).c.stk = [] := by
  unfold lept_parse
  dsimp only
  have hstk := lept_parse_value_stk ⟨lept_parse_whitespace json, []⟩ (lept_init v)
  split_ifs with hr hp
  · exact hstk
  · exact hstk
  · exact hstk

/-- C9: lept_free leaves the Value in the Null state, is idempotent,
is a no-op on an already-Null value, and the composition never frees a
payload twice (the guard of the free call is false after one release). -/
theorem C9_free_idempotent_null (v : LeptValue) :
    (lept_free v).type = .LEPT_NULL ∧
      lept_free (lept_free v) = lept_free v ∧
      (v.type = .LEPT_NULL → lept_free v = v) ∧
      lept_free_frees_payload (lept_free v) = false := by
  refine ⟨rfl, rfl, ?_, by simp [lept_free, lept_free_frees_payload]⟩
  intro h
  cases v with
  | mk t n s l =>
    cases h
    rfl

/-- Witness for C9: applying the no-op law at a concrete Null value and
the double-free guard at a concrete String value. -/
theorem C9_free_idempotent_null_witness :
    lept_free ⟨.LEPT_NULL, .finite 0, [], 0⟩ = ⟨.LEPT_NULL, .finite 0, [], 0⟩ ∧
      lept_free_frees_payload (lept_free ⟨.LEPT_STRING, .finite 0, [7, 0], 1⟩) = false :=
  ⟨(C9_free_idempotent_null ⟨.LEPT_NULL, .finite 0, [], 0⟩).2.2.1 rfl,
    (C9_free_idempotent_null ⟨.LEPT_STRING, .finite 0, [7, 0], 1⟩).2.2.2⟩

end Leptjson
